import Mathlib

/-!
Verification of the face-store and recognition-pipeline core of the
facial-recognition application (src/utils.py).

Shallow embedding conventions:
* real-valued quantities (embedding distances, thresholds, confidences) are
  modelled exactly over `ℚ`;
* image buffers are modelled by `Image`: dimensions, an abstract pixel-content
  tag `pix`, and the list of drawing operations applied so far (`ops`);
* the external face-recognition / vision library and the filesystem are an
  injected capability record `Env`; calls that can raise a Python exception
  return `Except String _` (the `String` is the exception message);
* the basic 2D drawing primitives (`cv2.rectangle`, `cv2.putText`) are
  modelled as total operations appending a `DrawOp` to a valid buffer;
* a Python `None` (or non-ndarray) frame argument is `none : Option Image`;
  a `None` store argument is the empty list (both are falsy in the source).
-/

namespace FacialRecognition

/-- A face embedding vector (fixed-length real vector in the source;
dimensionality is irrelevant to the verified properties). -/
abbrev Encoding := List ℚ

/-- A face bounding box `(top, right, bottom, left)` in pixel coordinates. -/
abbrev Box := Int × Int × Int × Int

/-- A BGR color triple. -/
abbrev Color := Nat × Nat × Nat

/-- A 2D drawing primitive applied to an image buffer
(`cv2.rectangle` / `cv2.putText`). -/
inductive DrawOp where
  | rect (p1 p2 : Int × Int) (color : Color) (thickness : Int)
  | text (s : String) (org : Int × Int) (font : Nat) (scale : ℚ) (color : Color) (thickness : Int)
deriving DecidableEq

/-- An image buffer: height, width, an abstract pixel-content tag, and the
drawing operations applied to it so far. -/
structure Image where
  h : Nat
  w : Nat
  pix : Nat
  ops : List DrawOp
deriving DecidableEq

/-- `numpy.ndarray.size` of an `h × w × 3` BGR frame. -/
def Image.size (i : Image) : Nat := i.h * i.w * 3

/-- Apply one drawing primitive to a buffer (appends the operation). -/
def Image.addOp (i : Image) (op : DrawOp) : Image := ⟨i.h, i.w, i.pix, i.ops ++ [op]⟩

/-- `cv2.FONT_HERSHEY_SIMPLEX`. -/
def FONT_HERSHEY_SIMPLEX : Nat := 0

/-- `cv2.FONT_HERSHEY_DUPLEX`. -/
def FONT_HERSHEY_DUPLEX : Nat := 2

/-- `cv2.FILLED`. -/
def FILLED : Int := -1

/-- The injected external capabilities: the vision / face-recognition library
and the filesystem, as consumed by src/utils.py.  Calls that can raise are
`Except String _`. -/
structure Env where
  cvtColor : Image → Except String Image
  resize : Image → ℚ → Except String Image
  face_locations : Image → Except String (List Box)
  face_encodings : Image → List Box → Except String (List Encoding)
  face_distance_one : Encoding → Encoding → ℚ
  listdir : String → List String
  isdir : String → Bool
  load_image_file : String → Except String Image

/-- `face_recognition.face_distance(known_face_encodings, face_encoding)`:
the list of distances from `e` to each known encoding, in store order. -/
def face_distance (env : Env) (kEncs : List Encoding) (e : Encoding) : List ℚ :=
  kEncs.map (fun k => env.face_distance_one k e)

/-- `numpy.argmin` on a list of rationals: the index of the first occurrence
of the minimum (0 on the empty list, which the source never queries). -/
def argmin : List ℚ → Nat
  | [] => 0
  | d :: rest =>
    if rest = [] then 0
    else if rest.getD (argmin rest) 0 < d then argmin rest + 1 else 0

/-- Python `int()` applied to a rational: truncation toward zero. -/
def pyInt (q : ℚ) : Int := q.num.tdiv (q.den : Int)

/-- The per-face recognition logic of `detect_and_display_faces`
(src/utils.py lines 171-186): given the store and one query encoding,
produce the `(name, confidence)` pair, or the message of the Python
exception the source would raise (`known_face_names[best_match_index]`
raises `IndexError` when the names list is shorter than the index). -/
def recognizeFace (env : Env) (kEncs : List Encoding) (kNames : List String)
    (threshold : ℚ) (e : Encoding) : Except String (String × ℚ) :=
  if kEncs.isEmpty || kNames.isEmpty then .ok ("Unknown", 0)
  else
    let fds := face_distance env kEncs e
    if fds.length > 0 then
      let i := argmin fds
      let d := fds.getD i 0
      if d < threshold then
        match kNames[i]? with
        | some nm => .ok (nm, 1 - d)
        | none => .error "list index out of range"
      else .ok ("Unknown", 1 - d)
    else .ok ("Unknown", 0)

/-- Python float formatting `f"{confidence:.2f}"`, abstracted: a concrete
string determined by the rounded value (the exact digits are irrelevant to
every verified property). -/
def fmtConf (q : ℚ) : String := toString (round (q * 100) : ℤ)

/-- The drawing performed for one detected face (src/utils.py lines 192-203):
box outline, filled label strip, name text, and — only for recognized
faces — the confidence text above the box. -/
def drawFace (img : Image) (b : Box) (name : String) (confidence : ℚ) : Image :=
  let i1 := img.addOp (.rect (b.2.2.2, b.1) (b.2.1, b.2.2.1) (0, 255, 0) 2)
  let i2 := i1.addOp (.rect (b.2.2.2, b.2.2.1 - 35) (b.2.1, b.2.2.1) (0, 255, 0) FILLED)
  let i3 := i2.addOp (.text name (b.2.2.2 + 6, b.2.2.1 - 6) FONT_HERSHEY_DUPLEX (4/5) (255, 255, 255) 1)
  if name ≠ "Unknown" then
    i3.addOp (.text (fmtConf confidence) (b.2.2.2 + 6, b.1 - 6) FONT_HERSHEY_DUPLEX (3/5) (0, 255, 0) 1)
  else i3

/-- The state of the inner `try` block of `detect_and_display_faces` when it
finishes or when an exception reaches the inner handler: the values of the
local variables `face_locations`, `face_names`, `face_confidences`,
`processed_frame`, plus the pending exception message, if any. -/
structure InnerResult where
  locs : List Box
  names : List String
  confs : List ℚ
  img : Image
  err : Option String
deriving DecidableEq

/-- The per-face loop of `detect_and_display_faces` (src/utils.py lines
170-203).  Each iteration recognizes one `(box, encoding)` pair, appends the
name and confidence, and draws onto `processed_frame`; an exception raised by
the recognition indexing stops the loop with the state accumulated so far. -/
def faceLoop (env : Env) (kEncs : List Encoding) (kNames : List String) (threshold : ℚ)
    (locs : List Box) :
    List (Box × Encoding) → List String → List ℚ → Image → InnerResult
  | [], names, confs, img => ⟨locs, names, confs, img, none⟩
  | (b, e) :: rest, names, confs, img =>
    match recognizeFace env kEncs kNames threshold e with
    | .error msg => ⟨locs, names, confs, img, some msg⟩
    | .ok nc =>
      faceLoop env kEncs kNames threshold locs rest
        (names ++ [nc.1]) (confs ++ [nc.2]) (drawFace img b nc.1 nc.2)

/-- Rescaling of detected boxes back to the original coordinate space
(src/utils.py lines 159-162); Python raises `ZeroDivisionError` when the
scale factor is zero. -/
def rescaleBoxes (sf : ℚ) (bs : List Box) : Except String (List Box) :=
  if sf = 0 then .error "float division by zero"
  else
    .ok (bs.map (fun b =>
      (pyInt ((b.1 : ℚ) / sf), pyInt ((b.2.1 : ℚ) / sf),
       pyInt ((b.2.2.1 : ℚ) / sf), pyInt ((b.2.2.2 : ℚ) / sf))))

/-- The body of the inner `try` block of `detect_and_display_faces`
(src/utils.py lines 144-203): color conversion, optional downscale,
detection, box rescale, encoding, and the per-face loop.  `pf0` is the value
of `processed_frame` (the copy of the input frame) on entry. -/
def runInner (env : Env) (frame : Image) (pf0 : Image) (kEncs : List Encoding)
    (kNames : List String) (threshold sf : ℚ) : InnerResult :=
  match env.cvtColor frame with
  | .error e => ⟨[], [], [], pf0, some e⟩
  | .ok rgb =>
    match (if sf < 1 then env.resize rgb sf else .ok rgb) with
    | .error e => ⟨[], [], [], pf0, some e⟩
    | .ok small =>
      match env.face_locations small with
      | .error e => ⟨[], [], [], pf0, some e⟩
      | .ok locs0 =>
        match (if sf < 1 then rescaleBoxes sf locs0 else .ok locs0) with
        | .error e => ⟨locs0, [], [], pf0, some e⟩
        | .ok locs =>
          if locs.isEmpty then ⟨locs, [], [], pf0, none⟩
          else
            match env.face_encodings rgb locs with
            | .error e => ⟨locs, [], [], pf0, some e⟩
            | .ok encs => faceLoop env kEncs kNames threshold locs (locs.zip encs) [] [] pf0

/-- The result object of the pipeline (class `ProcessedFrame`,
src/utils.py lines 9-17). -/
structure ProcessedFrame where
  frame : Image
  face_locations : List Box
  face_names : List String
  face_confidences : List ℚ
deriving DecidableEq

/-- The fresh blank buffer `np.zeros((480, 640, 3))`. -/
def blankFrame : Image := ⟨480, 640, 0, []⟩

/-- The result returned for a `None` / non-ndarray / zero-size frame
(src/utils.py lines 128-134). -/
def invalidFrameResult : ProcessedFrame :=
  ProcessedFrame.mk
    (blankFrame.addOp (.text "Error: Invalid frame" (50, 240) FONT_HERSHEY_SIMPLEX 1 (0, 0, 255) 2))
    [] [] []

/-- `detect_and_display_faces` (src/utils.py lines 112-229): validate the
frame, copy it, run the inner detection/recognition/drawing block, annotate
the copy with the error message when the inner block raised, and always
return a `ProcessedFrame`. -/
def detect_and_display_faces (env : Env) (frame : Option Image)
    (known_face_encodings : List Encoding) (known_face_names : List String)
    (recognition_threshold scale_factor : ℚ) : ProcessedFrame :=
  match frame with
  | none => invalidFrameResult
  | some f =>
    if f.size = 0 then invalidFrameResult
    else
      let r := runInner env f f known_face_encodings known_face_names
        recognition_threshold scale_factor
      match r.err with
      | some e =>
        ProcessedFrame.mk
          (r.img.addOp (.text ("Error: " ++ e) (10, 30) FONT_HERSHEY_SIMPLEX (7/10) (0, 0, 255) 2))
          r.locs r.names r.confs
      | none => ProcessedFrame.mk r.img r.locs r.names r.confs

/-- What a store file deserializes to.  `store` is any pickled value carrying
the expected `encodings` / `names` dictionary shape (src/utils.py lines
83-86); `other` is any file content that raises during `pickle.load` or on
the key accesses of line 110 — the source propagates that exception, which
the design taxonomy names `CorruptStoreError`. -/
inductive PickleData where
  | store (encodings : List Encoding) (names : List String)
  | other
deriving DecidableEq

/-- The filesystem seen by the store functions: a map from path to file
content, `none` meaning the path does not exist. -/
abbrev FS := String → Option PickleData

/-- `save_known_faces` (src/utils.py lines 74-91): write the
`{"encodings": ..., "names": ...}` dictionary to `filename`, overwriting. -/
def save_known_faces (known_face_encodings : List Encoding)
    (known_face_names : List String) (filename : String) (fs : FS) : FS :=
  fun p => if p = filename then some (.store known_face_encodings known_face_names) else fs p

/-- The failure mode of `load_known_faces` on a malformed file. -/
inductive LoadError where
  | corruptStore
deriving DecidableEq

/-- `load_known_faces` (src/utils.py lines 93-110): empty store when the path
does not exist, the stored lists when it deserializes, an exception
(`CorruptStoreError` in the design taxonomy) otherwise. -/
def load_known_faces (filename : String) (fs : FS) :
    Except LoadError (List Encoding × List String) :=
  match fs filename with
  | none => .ok ([], [])
  | some (.store encs names) => .ok (encs, names)
  | some .other => .error .corruptStore

/-- `os.path.join`. -/
def pathJoin (a b : String) : String := a ++ "/" ++ b

/-- The image-extension filter of src/utils.py line 45:
`image_path.lower().endswith((".png", ".jpg", ".jpeg"))` — lower-casing and
suffix testing are carried out on the character list of the path. -/
def isImageFile (path : String) : Bool :=
  let l := path.data.map Char.toLower
  ".png".data.isSuffixOf l || ".jpg".data.isSuffixOf l || ".jpeg".data.isSuffixOf l

/-- The per-image `try` block of `load_training_data` (src/utils.py lines
48-70): load, detect, skip unless exactly one face, encode, take entry `[0]`.
`none` means the image was skipped (a warning or a caught exception). -/
def processTrainingImage (env : Env) (path : String) : Option Encoding :=
  match env.load_image_file path with
  | .error _ => none
  | .ok image =>
    match env.face_locations image with
    | .error _ => none
    | .ok locs =>
      if locs.length ≠ 1 then none
      else
        match env.face_encodings image locs with
        | .error _ => none
        | .ok encs => encs.head?

/-- The inner loop of `load_training_data` over one person's directory
listing (src/utils.py lines 41-70). -/
def trainImages (env : Env) (person_dir person_name : String) :
    List String → List Encoding × List String
  | [] => ([], [])
  | image_name :: rest =>
    let image_path := pathJoin person_dir image_name
    let r := trainImages env person_dir person_name rest
    if isImageFile image_path then
      match processTrainingImage env image_path with
      | some enc => (enc :: r.1, person_name :: r.2)
      | none => r
    else r

/-- The outer loop of `load_training_data` over the root directory listing
(src/utils.py lines 33-70). -/
def trainPersons (env : Env) (training_dir : String) :
    List String → List Encoding × List String
  | [] => ([], [])
  | person_name :: rest =>
    let person_dir := pathJoin training_dir person_name
    let r := trainPersons env training_dir rest
    if env.isdir person_dir then
      let p := trainImages env person_dir person_name (env.listdir person_dir)
      (p.1 ++ r.1, p.2 ++ r.2)
    else r

/-- `load_training_data` (src/utils.py lines 19-72). -/
def load_training_data (env : Env) (training_dir : String) :
    List Encoding × List String :=
  trainPersons env training_dir (env.listdir training_dir)

/-- Stated from the spec for comparison with the source translation: an image
in which exactly one face is detected (loads without error and detection
returns exactly one box). -/
def oneFaceImage (env : Env) (path : String) : Bool :=
  match env.load_image_file path with
  | .error _ => false
  | .ok image =>
    match env.face_locations image with
    | .error _ => false
    | .ok locs => locs.length == 1

/-- Stated from the spec for comparison with the source translation: the
labels contributed by one immediate subdirectory — one copy of the person
name per image file with exactly one detected face. -/
def specImageLabels (env : Env) (person_dir person_name : String) : List String :=
  ((env.listdir person_dir).filter
    (fun img => isImageFile (pathJoin person_dir img) &&
      oneFaceImage env (pathJoin person_dir img))).map (fun _ => person_name)

/-- Stated from the spec for comparison with the source translation: the
labels of a training pass — the concatenation over immediate subdirectories
of the root of each subdirectory's qualifying-image labels. -/
def specTrainingLabels (env : Env) (training_dir : String) : List String :=
  ((env.listdir training_dir).filter
    (fun p => env.isdir (pathJoin training_dir p))).flatMap
    (fun p => specImageLabels env (pathJoin training_dir p) p)

/-- The capability contract of the embedding backend stated in the design
(one embedding per supplied box, no failure): `computeEmbeddings(image,
boxes) → sequence of fixed-length vectors, one per box`. -/
def EncodeTotal (env : Env) : Prop :=
  ∀ image bs, ∃ encs, env.face_encodings image bs = .ok encs ∧ encs.length = bs.length

/-- Embedding distances are nonnegative (they are Euclidean norms in the
external library). -/
def DistNonneg (env : Env) : Prop :=
  ∀ a b, 0 ≤ env.face_distance_one a b

/-- A heap of image buffers, for the buffer-level (aliasing-aware) view of
the pipeline. -/
structure Heap where
  bufs : List Image
deriving DecidableEq

/-- Allocate a fresh buffer; returns the new heap and the fresh index. -/
def Heap.alloc (hp : Heap) (img : Image) : Heap × Nat :=
  (⟨hp.bufs ++ [img]⟩, hp.bufs.length)

/-- Read a buffer by index. -/
def Heap.read (hp : Heap) (i : Nat) : Option Image := hp.bufs[i]?

/-- The pipeline result at buffer level: the index of the annotated output
buffer plus the three parallel lists. -/
structure ProcessedFrameRef where
  frame : Nat
  face_locations : List Box
  face_names : List String
  face_confidences : List ℚ
deriving DecidableEq

/-- Buffer-level view of `detect_and_display_faces`: the caller passes a
reference to its frame buffer; the pipeline reads it, performs all its work
on a freshly allocated copy (`frame.copy()`, src/utils.py line 137 — every
subsequent drawing call of lines 192-210 targets `processed_frame`), and
returns the fresh buffer's index.  The caller's buffer is never written. -/
def detect_and_display_faces_heap (env : Env) (hp : Heap) (frameRef : Option Nat)
    (known_face_encodings : List Encoding) (known_face_names : List String)
    (recognition_threshold scale_factor : ℚ) : Heap × ProcessedFrameRef :=
  let frameVal : Option Image := frameRef.bind (fun i => hp.read i)
  let r := detect_and_display_faces env frameVal known_face_encodings known_face_names
    recognition_threshold scale_factor
  let a := hp.alloc r.frame
  (a.1, ⟨a.2, r.face_locations, r.face_names, r.face_confidences⟩)

/-- A concrete capability record used to evaluate the development on small
inputs: the library succeeds everywhere, detection finds no face, and the
distance from a known encoding to any query is the known encoding's first
component (so a store entry `[q]` sits at distance `q`). -/
def envC2 : Env where
  cvtColor := fun i => .ok i
  resize := fun i _ => .ok i
  face_locations := fun _ => .ok []
  face_encodings := fun _ bs => .ok (bs.map (fun _ => ([] : Encoding)))
  face_distance_one := fun k _ => k.headD 1
  listdir := fun _ => []
  isdir := fun _ => false
  load_image_file := fun _ => .error "unreadable"

/-- A concrete capability record whose detection always finds one face at a
fixed box, with the same headD-based distance as `envC2`. -/
def envDetect : Env where
  cvtColor := fun i => .ok i
  resize := fun i _ => .ok i
  face_locations := fun _ => .ok [(10, 20, 30, 5)]
  face_encodings := fun _ bs => .ok (bs.map (fun _ => ([] : Encoding)))
  face_distance_one := fun k _ => k.headD 1
  listdir := fun _ => []
  isdir := fun _ => false
  load_image_file := fun _ => .error "unreadable"

/-- Like `envDetect` but with nonnegative distances: the distance from a
known encoding to any query is the maximum of the known encoding's first
component and zero. -/
def envNonneg : Env where
  cvtColor := fun i => .ok i
  resize := fun i _ => .ok i
  face_locations := fun _ => .ok [(10, 20, 30, 5)]
  face_encodings := fun _ bs => .ok (bs.map (fun _ => ([] : Encoding)))
  face_distance_one := fun k _ => max (k.headD 1) 0
  listdir := fun _ => []
  isdir := fun _ => false
  load_image_file := fun _ => .error "unreadable"

/-- Like `envDetect` but whose embedding computation raises. -/
def envEncFail : Env where
  cvtColor := fun i => .ok i
  resize := fun i _ => .ok i
  face_locations := fun _ => .ok [(10, 20, 30, 5)]
  face_encodings := fun _ _ => .error "encoding failed"
  face_distance_one := fun k _ => k.headD 1
  listdir := fun _ => []
  isdir := fun _ => false
  load_image_file := fun _ => .error "unreadable"

/-- A concrete capability record with a small training directory: one person
subdirectory "alice" holding an image with one face, one with two faces, one
with none, one non-image file and one unreadable image.  The number of faces
detected in an image is its `pix` tag. -/
def envTrain : Env where
  cvtColor := fun i => .ok i
  resize := fun i _ => .ok i
  face_locations := fun i => .ok (List.replicate i.pix (10, 20, 30, 5))
  face_encodings := fun _ bs => .ok (bs.map (fun _ => ([7] : Encoding)))
  face_distance_one := fun k _ => k.headD 1
  listdir := fun p =>
    if p = "training_data" then ["alice", "notes.txt"]
    else if p = "training_data/alice" then ["one.jpg", "two.png", "none.jpg", "skip.txt", "bad.jpg"]
    else []
  isdir := fun p => p = "training_data/alice"
  load_image_file := fun p =>
    if p = "training_data/alice/one.jpg" then .ok ⟨5, 5, 1, []⟩
    else if p = "training_data/alice/two.png" then .ok ⟨5, 5, 2, []⟩
    else if p = "training_data/alice/none.jpg" then .ok ⟨5, 5, 0, []⟩
    else .error "unreadable"

/-- `j` is the image `i` with some drawing operations appended: same
dimensions, same underlying pixel content, `ops` extended. This is what a
buffer becomes when 2D primitives are drawn onto a copy of `i`. -/
def Extends (j i : Image) : Prop :=
  j.h = i.h ∧ j.w = i.w ∧ j.pix = i.pix ∧ ∃ l, j.ops = i.ops ++ l

theorem argmin_lt_length : ∀ (l : List ℚ), l ≠ [] → argmin l < l.length := by
  intro l
  induction l with
  | nil => intro h; exact absurd rfl h
  | cons d rest ih =>
    intro _
    by_cases hr : rest = []
    · subst hr; simp [argmin]
    · simp only [argmin, if_neg hr]
      by_cases hlt : rest.getD (argmin rest) 0 < d
      · rw [if_pos hlt]
        simpa using Nat.succ_lt_succ (ih hr)
      · rw [if_neg hlt]
        simp

theorem argmin_le : ∀ (l : List ℚ), ∀ j < l.length, l.getD (argmin l) 0 ≤ l.getD j 0 := by
  intro l
  induction l with
  | nil => intro j hj; simp at hj
  | cons d rest ih =>
    intro j hj
    by_cases hr : rest = []
    · subst hr
      simp at hj
      subst hj
      simp [argmin]
    · simp only [argmin, if_neg hr]
      by_cases hlt : rest.getD (argmin rest) 0 < d
      · rw [if_pos hlt]
        simp only [List.getD_cons_succ]
        match j with
        | 0 => simpa using le_of_lt hlt
        | j' + 1 =>
          simp only [List.getD_cons_succ]
          exact ih j' (by simpa using hj)
      · rw [if_neg hlt]
        simp only [List.getD_cons_zero]
        match j with
        | 0 => simp
        | j' + 1 =>
          simp only [List.getD_cons_succ]
          exact le_trans (not_lt.mp hlt) (ih j' (by simpa using hj))

theorem argmin_first : ∀ (l : List ℚ), ∀ j < argmin l, l.getD (argmin l) 0 < l.getD j 0 := by
  intro l
  induction l with
  | nil => intro j hj; simp [argmin] at hj
  | cons d rest ih =>
    intro j hj
    by_cases hr : rest = []
    · subst hr; simp [argmin] at hj
    · simp only [argmin, if_neg hr] at hj ⊢
      by_cases hlt : rest.getD (argmin rest) 0 < d
      · rw [if_pos hlt] at hj ⊢
        simp only [List.getD_cons_succ]
        match j with
        | 0 => simpa using hlt
        | j' + 1 =>
          simp only [List.getD_cons_succ]
          exact ih j' (by omega)
      · rw [if_neg hlt] at hj
        omega

/-- C2: for every face, `recognizeFace` follows the specified rule: an empty
store yields label "Unknown" with confidence 0; otherwise, with `i` the
first-occurrence index of the minimum distance `d` over the store,
the confidence is `1 - d` and the label is entry `i`'s name exactly when
`d` is strictly below the threshold, else "Unknown" with the same
confidence. -/
theorem claim_C2_per_face_labeling (env : Env) (kEncs : List Encoding)
    (kNames : List String) (t : ℚ) (e : Encoding)
    (hlen : kEncs.length = kNames.length) :
    (kEncs = [] → recognizeFace env kEncs kNames t e = .ok ("Unknown", 0)) ∧
    (kEncs ≠ [] → ∀ i d, i = argmin (face_distance env kEncs e) →
      d = (face_distance env kEncs e).getD i 0 →
      i < (face_distance env kEncs e).length ∧
      (∀ j < (face_distance env kEncs e).length,
        d ≤ (face_distance env kEncs e).getD j 0) ∧
      (∀ j < i, d < (face_distance env kEncs e).getD j 0) ∧
      recognizeFace env kEncs kNames t e =
        .ok (if d < t then kNames.getD i "Unknown" else "Unknown", 1 - d)) := by
  constructor
  · intro h
    subst h
    simp [recognizeFace]
  · intro hne i d hi hd
    have hfdlen : (face_distance env kEncs e).length = kEncs.length :=
      List.length_map _ _
    have hfdne : face_distance env kEncs e ≠ [] := by
      intro h
      exact hne (List.map_eq_nil_iff.mp h)
    have hargl : argmin (face_distance env kEncs e) < (face_distance env kEncs e).length :=
      argmin_lt_length _ hfdne
    subst hi hd
    refine ⟨hargl, argmin_le _, argmin_first _, ?_⟩
    have hE : kEncs.isEmpty = false := by
      simpa [List.isEmpty_iff] using hne
    have hN : kNames.isEmpty = false := by
      have : kNames ≠ [] := by
        intro h
        apply hne
        apply List.eq_nil_of_length_eq_zero
        rw [hlen, h]
        rfl
      simpa [List.isEmpty_iff] using this
    have hpos : 0 < (face_distance env kEncs e).length :=
      List.length_pos.mpr hfdne
    simp only [recognizeFace, hE, hN, Bool.or_self, Bool.false_or, if_neg (by simp : ¬(false = true)),
      gt_iff_lt, if_pos hpos]
    by_cases hdt : (face_distance env kEncs e).getD (argmin (face_distance env kEncs e)) 0 < t
    · rw [if_pos hdt, if_pos hdt]
      have hiN : argmin (face_distance env kEncs e) < kNames.length := by
        rw [← hlen, ← hfdlen]
        exact hargl
      rw [List.getElem?_eq_getElem hiN, List.getD_eq_getElem _ _ hiN]
    · rw [if_neg hdt, if_neg hdt]

/-- C2 witness: a store of two entries at distances 1/2 and 3/10 from the
query with threshold 3/5 yields the second entry's label with confidence
7/10. -/
theorem claim_C2_per_face_labeling_witness :
    recognizeFace envC2 [[1/2], [3/10]] ["alice", "bob"] (3/5) [9] = .ok ("bob", 7/10) := by
  have h := (claim_C2_per_face_labeling envC2 [[1/2], [3/10]] ["alice", "bob"] (3/5) [9] rfl).2
    (by simp) (argmin (face_distance envC2 [[1/2], [3/10]] [9]))
    ((face_distance envC2 [[1/2], [3/10]] [9]).getD (argmin (face_distance envC2 [[1/2], [3/10]] [9])) 0)
    rfl rfl
  refine h.2.2.2.trans ?_
  norm_num [face_distance, envC2, argmin]

/-- C4: save-then-load round-trip on the same path reproduces exactly the
saved encodings and names, order preserved. -/
theorem claim_C4_roundtrip (encs : List Encoding) (names : List String)
    (fn : String) (fs : FS) (h : encs.length = names.length) :
    load_known_faces fn (save_known_faces encs names fn fs) = .ok (encs, names) := by
  simp [load_known_faces, save_known_faces]

/-- C4 witness: round-trip at a concrete store and path. -/
theorem claim_C4_roundtrip_witness :
    load_known_faces "known_faces.pkl"
      (save_known_faces [[1, 2], [3, 4]] ["alice", "bob"] "known_faces.pkl" (fun _ => none)) =
      .ok ([[1, 2], [3, 4]], ["alice", "bob"]) :=
  claim_C4_roundtrip [[1, 2], [3, 4]] ["alice", "bob"] "known_faces.pkl" (fun _ => none) rfl

/-- C5: loading a nonexistent path yields the empty store; loading an
existing file that does not deserialize into the expected shape fails with
the corrupt-store error and nothing else. -/
theorem claim_C5_load_failure_modes (fn : String) (fs : FS) :
    (fs fn = none → load_known_faces fn fs = .ok ([], [])) ∧
    (fs fn = some .other → load_known_faces fn fs = .error .corruptStore) := by
  constructor
  · intro h
    simp [load_known_faces, h]
  · intro h
    simp [load_known_faces, h]

/-- C5 witness: both failure modes at concrete filesystems. -/
theorem claim_C5_load_failure_modes_witness :
    load_known_faces "known_faces.pkl" (fun _ => none) = .ok ([], []) ∧
    load_known_faces "known_faces.pkl" (fun _ => some .other) = .error .corruptStore :=
  ⟨(claim_C5_load_failure_modes "known_faces.pkl" (fun _ => none)).1 rfl,
   (claim_C5_load_failure_modes "known_faces.pkl" (fun _ => some .other)).2 rfl⟩

theorem faceLoop_spec (env : Env) (kEncs : List Encoding) (kNames : List String)
    (t : ℚ) (locs : List Box) (P : String → ℚ → Prop)
    (hP : ∀ e n c, recognizeFace env kEncs kNames t e = .ok (n, c) → P n c) :
    ∀ (pairs : List (Box × Encoding)) (names : List String) (confs : List ℚ) (img : Image),
      names.length = confs.length →
      (∀ i < names.length, P (names.getD i "") (confs.getD i 0)) →
      (faceLoop env kEncs kNames t locs pairs names confs img).locs = locs ∧
      (faceLoop env kEncs kNames t locs pairs names confs img).names.length =
        (faceLoop env kEncs kNames t locs pairs names confs img).confs.length ∧
      (faceLoop env kEncs kNames t locs pairs names confs img).names.length ≤
        names.length + pairs.length ∧
      (∀ i < (faceLoop env kEncs kNames t locs pairs names confs img).names.length,
        P ((faceLoop env kEncs kNames t locs pairs names confs img).names.getD i "")
          ((faceLoop env kEncs kNames t locs pairs names confs img).confs.getD i 0)) ∧
      ((faceLoop env kEncs kNames t locs pairs names confs img).err = none →
        (faceLoop env kEncs kNames t locs pairs names confs img).names.length =
          names.length + pairs.length) := by
  intro pairs
  induction pairs with
  | nil =>
    intro names confs img hlen hprop
    exact ⟨rfl, hlen, by simp [faceLoop], hprop, by simp [faceLoop]⟩
  | cons p rest ih =>
    intro names confs img hlen hprop
    obtain ⟨b, e⟩ := p
    cases hr : recognizeFace env kEncs kNames t e with
    | error msg =>
      refine ⟨?_, ?_, ?_, ?_, ?_⟩ <;> simp only [faceLoop, hr]
      · exact hlen
      · exact Nat.le_add_right _ _
      · exact hprop
      · intro h
        simp at h
    | ok nc =>
      obtain ⟨n, c⟩ := nc
      simp only [faceLoop, hr]
      have hlen' : (names ++ [n]).length = (confs ++ [c]).length := by
        simp [hlen]
      have hprop' : ∀ i < (names ++ [n]).length,
          P ((names ++ [n]).getD i "") ((confs ++ [c]).getD i 0) := by
        intro i hi
        simp only [List.length_append, List.length_singleton] at hi
        by_cases hlt : i < names.length
        · rw [List.getD_append _ _ _ _ hlt, List.getD_append _ _ _ _ (hlen ▸ hlt)]
          exact hprop i hlt
        · have hieq : i = names.length := by omega
          subst hieq
          have e1 : (names ++ [n]).getD names.length "" = n := by
            rw [List.getD_append_right _ _ _ _ (le_refl _)]
            simp
          have e2 : (confs ++ [c]).getD names.length 0 = c := by
            rw [hlen, List.getD_append_right _ _ _ _ (le_refl _)]
            simp
          rw [e1, e2]
          exact hP e n c hr
      obtain ⟨h1, h2, h3, h4, h5⟩ := ih (names ++ [n]) (confs ++ [c]) (drawFace img b n c) hlen' hprop'
      refine ⟨h1, h2, ?_, h4, ?_⟩
      · simp only [List.length_append, List.length_singleton] at h3
        simp only [List.length_cons]
        omega
      · intro he
        have h6 := h5 he
        simp only [List.length_append, List.length_singleton] at h6
        simp only [List.length_cons]
        omega

theorem runInner_spec (env : Env) (f pf0 : Image) (kEncs : List Encoding)
    (kNames : List String) (t sf : ℚ) (P : String → ℚ → Prop)
    (hP : ∀ e n c, recognizeFace env kEncs kNames t e = .ok (n, c) → P n c) :
    (runInner env f pf0 kEncs kNames t sf).names.length =
      (runInner env f pf0 kEncs kNames t sf).confs.length ∧
    (runInner env f pf0 kEncs kNames t sf).names.length ≤
      (runInner env f pf0 kEncs kNames t sf).locs.length ∧
    (∀ i < (runInner env f pf0 kEncs kNames t sf).names.length,
      P ((runInner env f pf0 kEncs kNames t sf).names.getD i "")
        ((runInner env f pf0 kEncs kNames t sf).confs.getD i 0)) ∧
    ((runInner env f pf0 kEncs kNames t sf).err = none → EncodeTotal env →
      (runInner env f pf0 kEncs kNames t sf).locs.length =
        (runInner env f pf0 kEncs kNames t sf).names.length) := by
  unfold runInner
  cases hc : env.cvtColor f with
  | error e => simp [hc]
  | ok rgb =>
    simp only [hc]
    cases hs : (if sf < 1 then env.resize rgb sf else .ok rgb) with
    | error e => simp [hs]
    | ok small =>
      simp only [hs]
      cases hd : env.face_locations small with
      | error e => simp [hd]
      | ok locs0 =>
        simp only [hd]
        cases hre : (if sf < 1 then rescaleBoxes sf locs0 else .ok locs0) with
        | error e => simp [hre]
        | ok locs =>
          simp only [hre]
          by_cases hemp : locs = []
          · simp only [hemp, List.isEmpty_nil, if_pos]
            refine ⟨rfl, by simp, by simp, ?_⟩
            intro _ _
            simp
          · simp only [List.isEmpty_iff, hemp, if_false]
            cases henc : env.face_encodings rgb locs with
            | error e => simp [henc]
            | ok encs =>
              simp only [henc]
              obtain ⟨h1, h2, h3, h4, h5⟩ :=
                faceLoop_spec env kEncs kNames t locs P hP (locs.zip encs) [] [] pf0 rfl
                  (by intro i hi; simp at hi)
              refine ⟨h2, ?_, h4, ?_⟩
              · rw [h1]
                calc (faceLoop env kEncs kNames t locs (locs.zip encs) [] [] pf0).names.length ≤
                      [].length + (locs.zip encs).length := h3
                  _ ≤ locs.length := by simp [List.length_zip]
              · intro he hEnc
                obtain ⟨encs', hok', hlen'⟩ := hEnc rgb locs
                rw [henc] at hok'
                have hencs : encs' = encs := by
                  injection hok' with h
                  exact h.symm
                rw [h1, h5 he]
                simp [List.length_zip, ← hencs, hlen']

theorem detect_spec (env : Env) (frame : Option Image) (kEncs : List Encoding)
    (kNames : List String) (t sf : ℚ) (P : String → ℚ → Prop)
    (hP : ∀ e n c, recognizeFace env kEncs kNames t e = .ok (n, c) → P n c) :
    (detect_and_display_faces env frame kEncs kNames t sf).face_names.length =
      (detect_and_display_faces env frame kEncs kNames t sf).face_confidences.length ∧
    (detect_and_display_faces env frame kEncs kNames t sf).face_names.length ≤
      (detect_and_display_faces env frame kEncs kNames t sf).face_locations.length ∧
    (∀ i < (detect_and_display_faces env frame kEncs kNames t sf).face_names.length,
      P ((detect_and_display_faces env frame kEncs kNames t sf).face_names.getD i "")
        ((detect_and_display_faces env frame kEncs kNames t sf).face_confidences.getD i 0)) ∧
    (∀ f, frame = some f → f.size ≠ 0 →
      (runInner env f f kEncs kNames t sf).err = none → EncodeTotal env →
      (detect_and_display_faces env frame kEncs kNames t sf).face_locations.length =
        (detect_and_display_faces env frame kEncs kNames t sf).face_names.length) := by
  cases frame with
  | none =>
    refine ⟨rfl, by simp [detect_and_display_faces, invalidFrameResult], ?_, ?_⟩
    · intro i hi
      simp [detect_and_display_faces, invalidFrameResult] at hi
    · intro f hf
      simp at hf
  | some f =>
    by_cases hsz : f.size = 0
    · simp only [detect_and_display_faces, hsz, if_pos]
      refine ⟨rfl, by simp [invalidFrameResult], ?_, ?_⟩
      · intro i hi
        simp [invalidFrameResult] at hi
      · intro f' hf' hsz'
        have : f' = f := by injection hf' with h; exact h.symm
        subst this
        exact absurd hsz hsz'
    · obtain ⟨h1, h2, h3, h4⟩ := runInner_spec env f f kEncs kNames t sf P hP
      cases herr : (runInner env f f kEncs kNames t sf).err with
      | some e =>
        simp only [detect_and_display_faces, hsz, if_neg, herr]
        refine ⟨h1, h2, h3, ?_⟩
        intro f' hf' _ herr' _
        have : f' = f := by injection hf' with h; exact h.symm
        subst this
        rw [herr] at herr'
        exact absurd herr' (by simp)
      | none =>
        simp only [detect_and_display_faces, hsz, if_neg, herr]
        refine ⟨h1, h2, h3, ?_⟩
        intro f' hf' _ _ hEnc
        have : f' = f := by injection hf' with h; exact h.symm
        subst this
        exact h4 herr hEnc

theorem face_distance_getD_nonneg (env : Env) (hd : DistNonneg env)
    (kEncs : List Encoding) (e : Encoding) (i : ℕ) :
    0 ≤ (face_distance env kEncs e).getD i 0 := by
  by_cases hi : i < (face_distance env kEncs e).length
  · rw [List.getD_eq_getElem _ _ hi]
    have : (face_distance env kEncs e)[i] ∈ face_distance env kEncs e :=
      List.getElem_mem hi
    obtain ⟨k, _, hk⟩ := List.mem_map.mp this
    rw [← hk]
    exact hd k e
  · rw [List.getD_eq_default _ _ (le_of_not_lt hi)]

theorem recognizeFace_conf_le_one (env : Env) (hd : DistNonneg env)
    (kEncs : List Encoding) (kNames : List String) (t : ℚ) (e : Encoding)
    (n : String) (c : ℚ) (h : recognizeFace env kEncs kNames t e = .ok (n, c)) :
    c ≤ 1 := by
  have hnn := face_distance_getD_nonneg env hd kEncs e
    (argmin (face_distance env kEncs e))
  simp only [recognizeFace] at h
  split at h
  · injection h with h'
    injection h' with _ hc
    rw [← hc]
    norm_num
  · split at h
    · split at h
      · split at h
        · injection h with h'
          injection h' with _ hc
          rw [← hc]
          linarith
        · exact absurd h (by simp)
      · injection h with h'
        injection h' with _ hc
        rw [← hc]
        linarith
    · injection h with h'
      injection h' with _ hc
      rw [← hc]
      norm_num

theorem recognizeFace_recognized (env : Env) (kEncs : List Encoding)
    (kNames : List String) (t : ℚ) (e : Encoding) (n : String) (c : ℚ)
    (h : recognizeFace env kEncs kNames t e = .ok (n, c)) (hn : n ≠ "Unknown") :
    1 - t < c := by
  simp only [recognizeFace] at h
  split at h
  · injection h with h'
    injection h' with hn' _
    exact absurd hn'.symm hn
  · split at h
    · split at h
      · rename_i hlt
        split at h
        · injection h with h'
          injection h' with _ hc
          rw [← hc]
          linarith
        · exact absurd h (by simp)
      · injection h with h'
        injection h' with hn' _
        exact absurd hn'.symm hn
    · injection h with h'
      injection h' with hn' _
      exact absurd hn'.symm hn

/-- C1: the pipeline never propagates an exception — `detect_and_display_faces`
is a total function into `ProcessedFrame` — and whenever the inner
detection/recognition/drawing block raises with message `e`, the returned
result carries the working copy of the frame annotated with the visible
error text `"Error: " ++ e` plus exactly the partial detection lists
accumulated up to the exception (possibly empty). -/
theorem claim_C1_error_recovery (env : Env) (f : Image) (kEncs : List Encoding)
    (kNames : List String) (t sf : ℚ) (hf : f.size ≠ 0) (e : String)
    (herr : (runInner env f f kEncs kNames t sf).err = some e) :
    detect_and_display_faces env (some f) kEncs kNames t sf =
      ProcessedFrame.mk
        ((runInner env f f kEncs kNames t sf).img.addOp
          (.text ("Error: " ++ e) (10, 30) FONT_HERSHEY_SIMPLEX (7/10) (0, 0, 255) 2))
        (runInner env f f kEncs kNames t sf).locs
        (runInner env f f kEncs kNames t sf).names
        (runInner env f f kEncs kNames t sf).confs := by
  simp [detect_and_display_faces, hf, herr]

/-- C1 witness: a failing embedding call on a valid frame yields the
annotated copy with the error text and the partial lists (full locations,
empty names and confidences). -/
theorem claim_C1_error_recovery_witness :
    detect_and_display_faces envEncFail (some ⟨480, 640, 7, []⟩) [] [] 1 1 =
      ProcessedFrame.mk
        ⟨480, 640, 7,
          [.text "Error: encoding failed" (10, 30) FONT_HERSHEY_SIMPLEX (7/10) (0, 0, 255) 2]⟩
        [(10, 20, 30, 5)] [] [] := by
  have h := claim_C1_error_recovery envEncFail ⟨480, 640, 7, []⟩ [] [] 1 1
    (by norm_num [Image.size]) "encoding failed"
    (by norm_num [runInner, envEncFail])
  rw [h]
  have hs : "Error: " ++ "encoding failed" = "Error: encoding failed" := rfl
  norm_num [runInner, envEncFail, Image.addOp, hs]

/-- C6 counterexample: with a store entry at distance 3/2 from the query and
threshold 3/5, the pipeline reports confidence −1/2, outside [0, 1]. -/
theorem claim_C6_counterexample :
    (detect_and_display_faces envDetect (some ⟨480, 640, 7, []⟩) [[3/2]] ["alice"]
      (3/5) 1).face_confidences = [-(1/2 : ℚ)] ∧ ¬(0 ≤ -(1/2 : ℚ)) := by
  constructor
  · norm_num [detect_and_display_faces, runInner, envDetect, Image.size, faceLoop,
      recognizeFace, face_distance, argmin]
  · norm_num

/-- C6 as amended: every reported confidence is at most 1 (distances are
nonnegative), but it is not bounded below by 0 — it goes negative exactly
when the nearest distance exceeds 1. -/
theorem claim_C6_confidence_bounds (env : Env) (hd : DistNonneg env)
    (frame : Option Image) (kEncs : List Encoding) (kNames : List String) (t sf : ℚ) :
    ∀ i < (detect_and_display_faces env frame kEncs kNames t sf).face_confidences.length,
      (detect_and_display_faces env frame kEncs kNames t sf).face_confidences.getD i 0 ≤ 1 := by
  obtain ⟨h1, _, h3, _⟩ := detect_spec env frame kEncs kNames t sf (fun _ c => c ≤ 1)
    (fun e n c h => recognizeFace_conf_le_one env hd kEncs kNames t e n c h)
  intro i hi
  rw [← h1] at hi
  exact h3 i hi

/-- C6 amended-claim witness: a nonnegative-distance environment produces a
confidence list of length one whose entry is at most 1. -/
theorem claim_C6_confidence_bounds_witness :
    (detect_and_display_faces envNonneg (some ⟨480, 640, 7, []⟩) [[3/2]] ["alice"]
      (3/5) 1).face_confidences.getD 0 0 ≤ 1 := by
  apply claim_C6_confidence_bounds envNonneg
    (fun a b => le_max_right _ _) (some ⟨480, 640, 7, []⟩) [[3/2]] ["alice"] (3/5) 1 0
  norm_num [detect_and_display_faces, runInner, envNonneg, Image.size, faceLoop,
    recognizeFace, face_distance, argmin]

/-- C7 counterexample: when the embedding call raises after detection found
one box, the returned lists are not of equal length — locations has one
entry, names none. -/
theorem claim_C7_counterexample :
    (detect_and_display_faces envEncFail (some ⟨480, 640, 7, []⟩) [] []
      1 1).face_locations.length = 1 ∧
    (detect_and_display_faces envEncFail (some ⟨480, 640, 7, []⟩) [] []
      1 1).face_names.length = 0 := by
  constructor <;>
    norm_num [detect_and_display_faces, runInner, envEncFail, Image.size]

/-- C7 as amended: names and confidences always have equal length and never
exceed locations in length, and all three are equal whenever the inner block
completed without an exception (with an encoder returning one embedding per
box); only the internal-error path can leave locations strictly longer. -/
theorem claim_C7_parallel_lists (env : Env) (frame : Option Image)
    (kEncs : List Encoding) (kNames : List String) (t sf : ℚ) :
    (detect_and_display_faces env frame kEncs kNames t sf).face_names.length =
      (detect_and_display_faces env frame kEncs kNames t sf).face_confidences.length ∧
    (detect_and_display_faces env frame kEncs kNames t sf).face_names.length ≤
      (detect_and_display_faces env frame kEncs kNames t sf).face_locations.length ∧
    (∀ f, frame = some f → f.size ≠ 0 →
      (runInner env f f kEncs kNames t sf).err = none → EncodeTotal env →
      (detect_and_display_faces env frame kEncs kNames t sf).face_locations.length =
        (detect_and_display_faces env frame kEncs kNames t sf).face_names.length) := by
  obtain ⟨h1, h2, _, h4⟩ := detect_spec env frame kEncs kNames t sf (fun _ _ => True)
    (fun _ _ _ _ => trivial)
  exact ⟨h1, h2, h4⟩

/-- C7 amended-claim witness: a successful run over one detected face has all
three lists of length one. -/
theorem claim_C7_parallel_lists_witness :
    (detect_and_display_faces envDetect (some ⟨480, 640, 7, []⟩) [] []
      1 1).face_names.length =
      (detect_and_display_faces envDetect (some ⟨480, 640, 7, []⟩) [] []
        1 1).face_confidences.length ∧
    (detect_and_display_faces envDetect (some ⟨480, 640, 7, []⟩) [] []
      1 1).face_locations.length =
      (detect_and_display_faces envDetect (some ⟨480, 640, 7, []⟩) [] []
        1 1).face_names.length := by
  have h := claim_C7_parallel_lists envDetect (some ⟨480, 640, 7, []⟩) [] [] 1 1
  refine ⟨h.1, h.2.2 ⟨480, 640, 7, []⟩ rfl (by norm_num [Image.size]) ?_ ?_⟩
  · norm_num [runInner, envDetect, faceLoop, recognizeFace]
  · intro image bs
    exact ⟨bs.map (fun _ => []), rfl, by simp⟩

/-- C8: a `None` / non-ndarray / zero-size frame short-circuits, without
raising, to a result with zero detections whose annotated image is the fixed
480×640 blank frame labeled with the error string "Error: Invalid frame". -/
theorem claim_C8_invalid_frame (env : Env) (kEncs : List Encoding)
    (kNames : List String) (t sf : ℚ) :
    detect_and_display_faces env none kEncs kNames t sf = invalidFrameResult ∧
    (∀ f : Image, f.size = 0 →
      detect_and_display_faces env (some f) kEncs kNames t sf = invalidFrameResult) ∧
    invalidFrameResult.face_locations = [] ∧
    invalidFrameResult.face_names = [] ∧
    invalidFrameResult.face_confidences = [] ∧
    invalidFrameResult.frame =
      ⟨480, 640, 0,
        [.text "Error: Invalid frame" (50, 240) FONT_HERSHEY_SIMPLEX 1 (0, 0, 255) 2]⟩ := by
  refine ⟨rfl, ?_, rfl, rfl, rfl, rfl⟩
  intro f hf
  simp [detect_and_display_faces, hf]

/-- C8 witness: a zero-height frame yields the invalid-frame result. -/
theorem claim_C8_invalid_frame_witness :
    detect_and_display_faces envC2 (some ⟨0, 640, 5, []⟩) [] [] 1 1 = invalidFrameResult :=
  (claim_C8_invalid_frame envC2 [] [] 1 1).2.1 ⟨0, 640, 5, []⟩ rfl

/-- C10: whenever a returned label is not "Unknown", the returned confidence
at the same index strictly exceeds `1 − threshold`. -/
theorem claim_C10_recognized_margin (env : Env) (frame : Option Image)
    (kEncs : List Encoding) (kNames : List String) (t sf : ℚ) :
    ∀ i < (detect_and_display_faces env frame kEncs kNames t sf).face_names.length,
      (detect_and_display_faces env frame kEncs kNames t sf).face_names.getD i "" ≠ "Unknown" →
      1 - t <
        (detect_and_display_faces env frame kEncs kNames t sf).face_confidences.getD i 0 := by
  obtain ⟨_, _, h3, _⟩ := detect_spec env frame kEncs kNames t sf
    (fun n c => n ≠ "Unknown" → 1 - t < c)
    (fun e n c h hn => recognizeFace_recognized env kEncs kNames t e n c h hn)
  exact h3

/-- C10 witness: a store entry at distance 3/10 with threshold 3/5 is
recognized as "alice", and its confidence 7/10 exceeds 1 − 3/5. -/
theorem claim_C10_recognized_margin_witness :
    (detect_and_display_faces envDetect (some ⟨480, 640, 7, []⟩) [[3/10]] ["alice"]
      (3/5) 1).face_names.getD 0 "" = "alice" ∧
    1 - 3/5 <
      (detect_and_display_faces envDetect (some ⟨480, 640, 7, []⟩) [[3/10]] ["alice"]
        (3/5) 1).face_confidences.getD 0 0 := by
  constructor
  · norm_num [detect_and_display_faces, runInner, envDetect, Image.size, faceLoop,
      recognizeFace, face_distance, argmin]
  · apply claim_C10_recognized_margin envDetect (some ⟨480, 640, 7, []⟩) [[3/10]]
      ["alice"] (3/5) 1 0
    · norm_num [detect_and_display_faces, runInner, envDetect, Image.size, faceLoop,
        recognizeFace, face_distance, argmin]
    · norm_num [detect_and_display_faces, runInner, envDetect, Image.size, faceLoop,
        recognizeFace, face_distance, argmin]
      decide

theorem extendsRefl (i : Image) : Extends i i :=
  ⟨rfl, rfl, rfl, [], by simp⟩

theorem extendsAddOp (i : Image) (op : DrawOp) : Extends (i.addOp op) i :=
  ⟨rfl, rfl, rfl, [op], rfl⟩

theorem extendsTrans (k j i : Image) (h1 : Extends k j) (h2 : Extends j i) :
    Extends k i := by
  obtain ⟨a1, a2, a3, l1, a4⟩ := h1
  obtain ⟨b1, b2, b3, l2, b4⟩ := h2
  exact ⟨a1.trans b1, a2.trans b2, a3.trans b3, l2 ++ l1,
    by rw [a4, b4, List.append_assoc]⟩

theorem drawFace_extends (img : Image) (b : Box) (n : String) (c : ℚ) :
    Extends (drawFace img b n c) img := by
  unfold drawFace
  split
  · exact extendsTrans _ _ _ (extendsAddOp _ _)
      (extendsTrans _ _ _ (extendsAddOp _ _)
        (extendsTrans _ _ _ (extendsAddOp _ _) (extendsAddOp _ _)))
  · exact extendsTrans _ _ _ (extendsAddOp _ _)
      (extendsTrans _ _ _ (extendsAddOp _ _) (extendsAddOp _ _))

theorem faceLoop_extends (env : Env) (kEncs : List Encoding) (kNames : List String)
    (t : ℚ) (locs : List Box) :
    ∀ (pairs : List (Box × Encoding)) (names : List String) (confs : List ℚ) (img : Image),
      Extends (faceLoop env kEncs kNames t locs pairs names confs img).img img := by
  intro pairs
  induction pairs with
  | nil => intro names confs img; exact extendsRefl _
  | cons p rest ih =>
    intro names confs img
    obtain ⟨b, e⟩ := p
    cases hr : recognizeFace env kEncs kNames t e with
    | error msg => simp only [faceLoop, hr]; exact extendsRefl _
    | ok nc =>
      simp only [faceLoop, hr]
      exact extendsTrans _ _ _ (ih _ _ _) (drawFace_extends _ _ _ _)

theorem runInner_extends (env : Env) (f pf0 : Image) (kEncs : List Encoding)
    (kNames : List String) (t sf : ℚ) :
    Extends (runInner env f pf0 kEncs kNames t sf).img pf0 := by
  unfold runInner
  cases hc : env.cvtColor f with
  | error e => simp only [hc]; exact extendsRefl _
  | ok rgb =>
    simp only [hc]
    cases hs : (if sf < 1 then env.resize rgb sf else .ok rgb) with
    | error e => simp only [hs]; exact extendsRefl _
    | ok small =>
      simp only [hs]
      cases hd : env.face_locations small with
      | error e => simp only [hd]; exact extendsRefl _
      | ok locs0 =>
        simp only [hd]
        cases hre : (if sf < 1 then rescaleBoxes sf locs0 else .ok locs0) with
        | error e => simp only [hre]; exact extendsRefl _
        | ok locs =>
          simp only [hre]
          by_cases hemp : locs.isEmpty
          · simp only [hemp, if_pos]
            exact extendsRefl _
          · simp only [hemp, Bool.false_eq_true, if_false]
            cases henc : env.face_encodings rgb locs with
            | error e => simp only [henc]; exact extendsRefl _
            | ok encs =>
              simp only [henc]
              exact faceLoop_extends env kEncs kNames t locs _ _ _ _

theorem detect_frame_extends (env : Env) (f : Image) (kEncs : List Encoding)
    (kNames : List String) (t sf : ℚ) (hsz : f.size ≠ 0) :
    Extends (detect_and_display_faces env (some f) kEncs kNames t sf).frame f := by
  cases herr : (runInner env f f kEncs kNames t sf).err with
  | some e =>
    simp only [detect_and_display_faces, hsz, if_neg, herr]
    exact extendsTrans _ _ _ (extendsAddOp _ _)
      (runInner_extends env f f kEncs kNames t sf)
  | none =>
    simp only [detect_and_display_faces, hsz, if_neg, herr]
    exact runInner_extends env f f kEncs kNames t sf

theorem processTrainingImage_isSome (env : Env) (hEnc : EncodeTotal env) (p : String) :
    (processTrainingImage env p).isSome = oneFaceImage env p := by
  unfold processTrainingImage oneFaceImage
  cases hl : env.load_image_file p with
  | error e => simp [hl]
  | ok image =>
    simp only [hl]
    cases hd : env.face_locations image with
    | error e => simp [hd]
    | ok locs =>
      simp only [hd]
      by_cases h1 : locs.length = 1
      · obtain ⟨encs, hok, hlen⟩ := hEnc image locs
        simp only [hok, h1, ne_eq, not_true_eq_false, if_false, beq_self_eq_true]
        cases encs with
        | nil => rw [h1] at hlen; exact absurd hlen (by simp)
        | cons a rest => simp
      · simp [h1]

theorem trainImages_spec (env : Env) (hEnc : EncodeTotal env) (pd pn : String) :
    ∀ files : List String,
      (trainImages env pd pn files).2 =
        ((files.filter (fun img => isImageFile (pathJoin pd img) &&
          oneFaceImage env (pathJoin pd img))).map (fun _ => pn)) ∧
      (trainImages env pd pn files).1.length = (trainImages env pd pn files).2.length := by
  intro files
  induction files with
  | nil => exact ⟨rfl, rfl⟩
  | cons a rest ih =>
    obtain ⟨ih1, ih2⟩ := ih
    by_cases himg : isImageFile (pathJoin pd a)
    · cases hp : processTrainingImage env (pathJoin pd a) with
      | some enc =>
        have hone : oneFaceImage env (pathJoin pd a) = true := by
          rw [← processTrainingImage_isSome env hEnc, hp]
          rfl
        simp [trainImages, himg, hp, List.filter_cons, hone, ih1, ih2]
      | none =>
        have hone : oneFaceImage env (pathJoin pd a) = false := by
          rw [← processTrainingImage_isSome env hEnc, hp]
          rfl
        simp [trainImages, himg, hp, List.filter_cons, hone, ih1, ih2]
    · simp [trainImages, himg, List.filter_cons, ih1, ih2]

theorem trainPersons_spec (env : Env) (hEnc : EncodeTotal env) (dir : String) :
    ∀ persons : List String,
      (trainPersons env dir persons).2 =
        ((persons.filter (fun p => env.isdir (pathJoin dir p))).flatMap
          (fun p => specImageLabels env (pathJoin dir p) p)) ∧
      (trainPersons env dir persons).1.length = (trainPersons env dir persons).2.length := by
  intro persons
  induction persons with
  | nil => exact ⟨rfl, rfl⟩
  | cons a rest ih =>
    obtain ⟨ih1, ih2⟩ := ih
    obtain ⟨t1, t2⟩ :=
      trainImages_spec env hEnc (pathJoin dir a) a (env.listdir (pathJoin dir a))
    by_cases hd : env.isdir (pathJoin dir a)
    · simp [trainPersons, hd, List.filter_cons, List.flatMap_cons, ih1, ih2,
        specImageLabels, t1, t2]
    · simp [trainPersons, hd, List.filter_cons, ih1, ih2]

/-- C3: under the design's embedding-backend contract (one embedding per
supplied box), a training pass returns a store whose labels are exactly one
copy of the subdirectory name per image file (with a png/jpg/jpeg extension,
directly inside an immediate subdirectory of the root) in which exactly one
face is detected, and whose encoding count equals that label count; images
with zero or several faces, non-image files, and images whose loading or
detection raises are skipped without aborting the pass. -/
theorem claim_C3_training_pass (env : Env) (training_dir : String)
    (hEnc : EncodeTotal env) :
    (load_training_data env training_dir).2 = specTrainingLabels env training_dir ∧
    (load_training_data env training_dir).1.length =
      (load_training_data env training_dir).2.length := by
  unfold load_training_data specTrainingLabels
  exact trainPersons_spec env hEnc training_dir (env.listdir training_dir)

/-- C3 witness: in the concrete training tree — person "alice" with one
one-face image, one two-face image, one zero-face image, one non-image file
and one unreadable file — training yields exactly one entry labeled
"alice". -/
theorem claim_C3_training_pass_witness :
    load_training_data envTrain "training_data" = ([[7]], ["alice"]) ∧
    (load_training_data envTrain "training_data").2 =
      specTrainingLabels envTrain "training_data" := by
  refine ⟨by decide, ?_⟩
  exact (claim_C3_training_pass envTrain "training_data"
    (fun image bs => ⟨bs.map (fun _ => [7]), rfl, by simp⟩)).1

/-- C9: at buffer level, the pipeline never writes the caller's frame buffer
— every buffer the caller held is unchanged afterwards — and its output is a
freshly allocated buffer that is the caller's frame content with drawing
operations appended (all drawing lands on the copy made by
`frame.copy()`).  The caller-supplied store lists are plain read-only inputs
of the embedding: the source never assigns to them. -/
theorem claim_C9_draw_on_copy (env : Env) (hp : Heap) (frameRef : Option Nat)
    (kEncs : List Encoding) (kNames : List String) (t sf : ℚ) :
    (∀ i < hp.bufs.length,
      (detect_and_display_faces_heap env hp frameRef kEncs kNames t sf).1.read i =
        hp.read i) ∧
    (detect_and_display_faces_heap env hp frameRef kEncs kNames t sf).2.frame =
      hp.bufs.length ∧
    (∀ idx f, frameRef = some idx → hp.read idx = some f → f.size ≠ 0 →
      Extends (detect_and_display_faces env (some f) kEncs kNames t sf).frame f ∧
      (detect_and_display_faces_heap env hp frameRef kEncs kNames t sf).1.read
          (detect_and_display_faces_heap env hp frameRef kEncs kNames t sf).2.frame =
        some (detect_and_display_faces env (some f) kEncs kNames t sf).frame) := by
  refine ⟨?_, rfl, ?_⟩
  · intro i hi
    simp only [detect_and_display_faces_heap, Heap.alloc, Heap.read]
    exact List.getElem?_append_left hi
  · intro idx f hidx hread hsz
    refine ⟨detect_frame_extends env f kEncs kNames t sf hsz, ?_⟩
    have hread' : hp.bufs[idx]? = some f := hread
    simp only [detect_and_display_faces_heap, Heap.alloc, Heap.read, hidx,
      Option.bind_some, hread']
    rw [List.getElem?_append_right (le_refl _)]
    simp only [Nat.sub_self, List.getElem?_cons_zero, Option.some_inj,
      Option.some_bind]
    rw [hread']

/-- C9 witness: processing the single caller-held buffer leaves it unchanged
in the heap and returns the fresh index 1. -/
theorem claim_C9_draw_on_copy_witness :
    (detect_and_display_faces_heap envDetect ⟨[⟨480, 640, 7, []⟩]⟩ (some 0) [] []
      1 1).1.read 0 = some ⟨480, 640, 7, []⟩ ∧
    (detect_and_display_faces_heap envDetect ⟨[⟨480, 640, 7, []⟩]⟩ (some 0) [] []
      1 1).2.frame = 1 := by
  have h := claim_C9_draw_on_copy envDetect ⟨[⟨480, 640, 7, []⟩]⟩ (some 0) [] [] 1 1
  exact ⟨(h.1 0 (by norm_num)).trans rfl, h.2.1⟩

end FacialRecognition
